import Mathlib

/-!
Verification of the markdown document combiner (`src/utils/md_doc.rs`).

Strings of the Rust code are modelled as `List Char`; the regex classes `\s`
and `\S` are modelled through `Char.isWhitespace`.  File reading
(`fs::read_to_string`) is modelled as an explicit partial map
`fs : Str → Option Str` (`none` = read error), and the external title
extractor `Title::from` as a parameter `tf : Str → Option Title`.
A `none` result of an operation that the Rust source `unwrap`s models a panic.
-/

/-- Rust `&str` / `String`, modelled as a list of characters. -/
abbrev Str := List Char

/-- `pat` is a leading segment of `l` (Rust `str::starts_with`). -/
def leadsWith : Str → Str → Bool
  | [], _ => true
  | _ :: _, [] => false
  | p :: ps, c :: cs => p == c && leadsWith ps cs

/-- `pat` is a trailing segment of `l` (Rust `str::ends_with`). -/
def trailsWith (pat l : Str) : Bool :=
  leadsWith pat.reverse l.reverse

/-- `pat` occurs contiguously inside `l` (Rust `str::contains`). -/
def occursIn (pat : Str) : Str → Bool
  | [] => leadsWith pat []
  | c :: cs => leadsWith pat (c :: cs) || occursIn pat cs

/-- Rust `str::split('\n')`: always at least one piece; a trailing newline
yields a trailing empty piece. -/
def splitOnNl : Str → List Str
  | [] => [[]]
  | c :: cs =>
    if c = '\n' then [] :: splitOnNl cs
    else
      match splitOnNl cs with
      | [] => [[c]]
      | l :: ls => (c :: l) :: ls

/-- Rust `Vec::join("\n")`. -/
def joinNl : List Str → Str
  | [] => []
  | [l] => l
  | l :: ls => l ++ '\n' :: joinNl ls

/-- The regex `^\s*$` of `add_pagebreakes`: the line is empty or all whitespace. -/
def isBlank (l : Str) : Bool :=
  l.all (fun c => c.isWhitespace)

/-- A line holding at least one non-whitespace character (regex `\S`). -/
def hasInk (l : Str) : Bool :=
  l.any (fun c => !c.isWhitespace)

/-- `MdDoc::PAGEBREAK`. -/
def PAGEBREAK : Str :=
  ("======================pagebreak======================").data

/-- `MdDoc::BODY_CONTENT`. -/
def BODY_CONTENT : Str :=
  ("======================body-section-content======================").data

/-- The directory tree handed to the combiner (external collaborator `DocDir`):
path, directory flag, derived header label, ordered children. -/
inductive DocDir where
  | mk (path : Str) (is_dir : Bool) (header : Str) (children : List DocDir)

def DocDir.path : DocDir → Str
  | .mk p _ _ _ => p

def DocDir.is_dir : DocDir → Bool
  | .mk _ d _ _ => d

/-- Modelled from the spec: `header()` is the label the external `DocDir`
collaborator derives from the path's final segment (`part01_xyz => Part 01`);
the derivation itself is outside this file's source, so the label is carried
as a field of the node. -/
def DocDir.header : DocDir → Str
  | .mk _ _ h _ => h

def DocDir.children : DocDir → List DocDir
  | .mk _ _ _ cs => cs

/-- The external `Title` (title page); only its raw text is relevant here. -/
structure Title where
  raw : Str
deriving DecidableEq

/-- Characters accepted by the regex class `[ \t]`. -/
def isSpaceTab (c : Char) : Bool :=
  c == ' ' || c == '\t'

/-- `Regex::new(r"^[ \t]*(#*)[ \t](.*)$").captures(l)` of `rebuild_header`,
with the leftmost-first greedy semantics of the Rust regex crate: the leading
`[ \t]*` and `(#*)` are matched greedily; when the character after the hash
run is not a space or tab the engine backtracks the leading `[ \t]*` by one,
so any line starting with a space or tab still matches with empty groups. -/
def headingCaptures (l : Str) : Option (Str × Str) :=
  let ws := l.takeWhile isSpaceTab
  let afterWs := l.drop ws.length
  let hashes := afterWs.takeWhile (fun c => c == '#')
  let afterHash := afterWs.drop hashes.length
  match afterHash with
  | c :: rest =>
    if isSpaceTab c then some (hashes, rest)
    else if ws.length > 0 then some ([], afterWs) else none
  | [] => if ws.length > 0 then some ([], afterWs) else none

/-- `MdDoc::rebuild_header`: reads the designated header-source file
(`fs::read_to_string(..).unwrap()` — a failed read panics, modelled by
`none`), rewrites a matching first line as
`<hashes> <dir.header()>. <text>\n\n`, keeps a non-matching first line
unchanged, and appends the remaining lines joined with newlines when more
than one remains, else the placeholder `"\n\n"`. -/
def rebuild_header (fs : Str → Option Str) (doc : DocDir) : Option Str :=
  match fs doc.path with
  | none => none
  | some raw =>
    let lines := splitOnNl raw
    let first_line := lines.headD []
    let rest := lines.tail
    let first_line :=
      match headingCaptures first_line with
      | some (hashes, text) =>
        hashes ++ (' ' :: doc.header) ++ ('.' :: ' ' :: text) ++ ['\n', '\n']
      | none => first_line
    let content := if rest.length > 1 then joinNl rest else ['\n', '\n']
    some (first_line ++ content)

/-- `MdDoc::read_header`: first non-directory child whose header equals the
directory's header is the header source; none found yields the empty string. -/
def read_header (fs : Str → Option Str) (dir : DocDir) : Option Str :=
  match dir.children.find? (fun c => !c.is_dir && c.header == dir.header) with
  | some first => rebuild_header fs first
  | none => some []

/-- `MdDoc::ends_with_pagebreak`: the first piece of `doc.rsplit("\n")` with a
non-whitespace character, if any, must contain the pagebreak sentinel. -/
def ends_with_pagebreak (doc : Str) : Bool :=
  match ((splitOnNl doc).reverse.dropWhile (fun l => !hasInk l)).head? with
  | some last_line => occursIn PAGEBREAK last_line
  | none => false

/-- Step 3 of the directory branch of `combine`:
`if !body.ends_with("\n\n") { body.push_str("\n\n"); }`. -/
def ensure_blank_end (body : Str) : Str :=
  if trailsWith ['\n', '\n'] body then body else body ++ ['\n', '\n']

/-- Step 4 of the directory branch of `combine`: append the pagebreak sentinel
and a blank line unless the body already ends with a pagebreak. -/
def ensure_pagebreak_end (body : Str) : Str :=
  if ends_with_pagebreak body then body
  else body ++ PAGEBREAK ++ ['\n', '\n']

/-- The filter closure of `combine` over a directory's children: directory
children always pass, file children pass only when their header differs from
the directory's header `h`. -/
def walkTest (h : Str) (c : DocDir) : Bool :=
  if c.is_dir then true else !(c.header == h)

/-- The filtered child list of a directory in `combine`. -/
def walkedChildren (h : Str) (cs : List DocDir) : List DocDir :=
  cs.filter (walkTest h)

mutual
/-- `MdDoc::combine`: files yield their title (first success wins, consumed)
or their content (a failed read contributes nothing); directories push the
rebuilt header, walk the filtered children (the Rust iterator's filter test is
applied per child), then ensure a trailing blank line and pagebreak.  `none`
models a panic escaping from `rebuild_header`'s `unwrap`. -/
def combine (fs : Str → Option Str) (tf : Str → Option Title) :
    DocDir → Str → Option Title → Option (Str × Option Title)
  | .mk p false _ _, body, title =>
    match title with
    | none =>
      match tf p with
      | some t => some (body, some t)
      | none =>
        match fs p with
        | some content => some (body ++ content, none)
        | none => some (body, none)
    | some t0 =>
      match fs p with
      | some content => some (body ++ content, some t0)
      | none => some (body, some t0)
  | .mk p true h cs, body, title =>
    match read_header fs (.mk p true h cs) with
    | none => none
    | some hdr =>
      match combineChildren fs tf h cs (body ++ hdr) title with
      | none => none
      | some (body1, title1) =>
        some (ensure_pagebreak_end (ensure_blank_end body1), title1)

/-- The child loop of `combine`'s directory branch: each child is tested with
the filter predicate and either recursed into or skipped. -/
def combineChildren (fs : Str → Option Str) (tf : Str → Option Title)
    (h : Str) :
    List DocDir → Str → Option Title → Option (Str × Option Title)
  | [], body, title => some (body, title)
  | c :: rest, body, title =>
    if walkTest h c then
      match combine fs tf c body title with
      | none => none
      | some (body1, title1) => combineChildren fs tf h rest body1 title1
    else
      combineChildren fs tf h rest body title
end

/-- The loop of `MdDoc::add_pagebreakes` over the lines after the first:
a line starting with `"# "` is preceded by `"\n\n"` when the previous line
was not blank, then the sentinel and `"\n\n"`; every line is emitted with a
trailing newline and its blankness recorded. -/
def pbLoop : Bool → List Str → Str → Str
  | _, [], doc => doc
  | prev, line :: rest, doc =>
    let doc :=
      if leadsWith ['#', ' '] line then
        (if !prev then doc ++ ['\n', '\n'] else doc) ++ PAGEBREAK ++ ['\n', '\n']
      else doc
    pbLoop (isBlank line) rest (doc ++ line ++ ['\n'])

/-- `MdDoc::add_pagebreakes`: emit the first line with a newline, then run the
loop over the remaining lines with `prev_is_empty` initialised to `false`. -/
def add_pagebreakes (doc : Str) : Str :=
  let lines := splitOnNl doc
  let out :=
    match lines.head? with
    | some line => line ++ ['\n']
    | none => []
  pbLoop false lines.tail out

mutual
/-- The file paths `combine` actually visits, in traversal order: a file node
is visited, a directory contributes its non-skipped children recursively. -/
def visitedFiles : DocDir → List Str
  | .mk p false _ _ => [p]
  | .mk _ true h cs => visitedFilesList h cs

def visitedFilesList (h : Str) : List DocDir → List Str
  | [] => []
  | c :: rest =>
    (if walkTest h c then visitedFiles c else []) ++ visitedFilesList h rest
end

/-- A plain iteration of `combine` over an already-filtered child list (the
eager reading of the Rust `filter` + `for` composition). -/
def combineList (fs : Str → Option Str) (tf : Str → Option Title) :
    List DocDir → Str → Option Title → Option (Str × Option Title)
  | [], body, title => some (body, title)
  | c :: rest, body, title =>
    match combine fs tf c body title with
    | none => none
    | some (body1, title1) => combineList fs tf rest body1 title1

/-- Modelled from the spec: `ends_with_pagebreak` holds exactly when the last
non-blank line of the text (none, when every line is blank) contains the
pagebreak sentinel. -/
def ends_with_pagebreak_spec (doc : Str) : Bool :=
  match ((splitOnNl doc).filter hasInk).getLast? with
  | some last_line => occursIn PAGEBREAK last_line
  | none => false

/-- Modelled from the spec: the per-line normalizer step as the spec words it,
keyed by whether the previously emitted input line was blank — before a
heading line it inserts the separation (two newline characters) unless the
previous line was blank, then the sentinel, a blank line, and the heading. -/
def breakChunksClaim : Bool → List Str → Str
  | _, [] => []
  | prev, line :: rest =>
    (if leadsWith ['#', ' '] line then
      (if !prev then ['\n', '\n'] else []) ++ PAGEBREAK ++ ['\n', '\n']
     else []) ++ line ++ '\n' :: breakChunksClaim (isBlank line) rest

/-- Modelled from the spec (claim C6 as stated): the normalizer with the
blankness of the first input line taken into account. -/
def add_pagebreakes_claim (doc : Str) : Str :=
  match splitOnNl doc with
  | [] => []
  | line :: rest => line ++ '\n' :: breakChunksClaim (isBlank line) rest

/-- Modelled from the spec, amended: identical to `add_pagebreakes_claim`
except that the first input line is always treated as non-blank. -/
def add_pagebreakes_amended (doc : Str) : Str :=
  match splitOnNl doc with
  | [] => []
  | line :: rest => line ++ '\n' :: breakChunksClaim false rest

/-! ### Basic facts about the line splitter -/

theorem splitOnNl_ne_nil (s : Str) : splitOnNl s ≠ [] := by
  cases s with
  | nil => simp [splitOnNl]
  | cons c cs =>
    simp only [splitOnNl]
    split
    · simp
    · split <;> simp

theorem joinNl_splitOnNl (s : Str) : joinNl (splitOnNl s) = s := by
  induction s with
  | nil => simp [splitOnNl, joinNl]
  | cons c cs ih =>
    simp only [splitOnNl]
    split
    · rename_i hc
      subst hc
      rcases hsp : splitOnNl cs with _ | ⟨l, ls⟩
      · exact absurd hsp (splitOnNl_ne_nil cs)
      · rw [hsp] at ih
        simp [joinNl, ← ih]
    · rename_i hc
      rcases hsp : splitOnNl cs with _ | ⟨l, ls⟩
      · exact absurd hsp (splitOnNl_ne_nil cs)
      · rw [hsp] at ih
        cases ls with
        | nil => simp [joinNl] at ih ⊢; simp [ih]
        | cons l2 ls2 => simp [joinNl] at ih ⊢; simp [ih]

theorem splitOnNl_append_cons (l s : Str) (hl : '\n' ∉ l) :
    splitOnNl (l ++ '\n' :: s) = l :: splitOnNl s := by
  induction l with
  | nil => simp [splitOnNl]
  | cons c cs ih =>
    simp only [List.mem_cons, not_or] at hl
    have hc : ¬ c = '\n' := fun h => hl.1 h.symm
    simp only [List.cons_append, splitOnNl, if_neg hc]
    rw [show cs.append ('\n' :: s) = cs ++ '\n' :: s from rfl, ih hl.2]

/-- Size of a piece list, each piece counted together with its newline. -/
def lineSum : List Str → Nat
  | [] => 0
  | l :: ls => l.length + 1 + lineSum ls

theorem lineSum_splitOnNl (s : Str) : lineSum (splitOnNl s) = s.length + 1 := by
  induction s with
  | nil => simp [splitOnNl, lineSum]
  | cons c cs ih =>
    simp only [splitOnNl]
    split
    · simp only [lineSum, List.length_cons, List.length_nil, ih]
      omega
    · rcases hsp : splitOnNl cs with _ | ⟨l, ls⟩
      · exact absurd hsp (splitOnNl_ne_nil cs)
      · rw [hsp] at ih
        simp only [lineSum, List.length_cons] at ih ⊢
        omega

theorem pbLoop_length_ge (ls : List Str) :
    ∀ (prev : Bool) (acc : Str),
      acc.length + lineSum ls ≤ (pbLoop prev ls acc).length := by
  induction ls with
  | nil =>
    intro prev acc
    simp [pbLoop, lineSum]
  | cons line rest ih =>
    intro prev acc
    simp only [pbLoop, lineSum]
    refine le_trans ?_ (ih (isBlank line) _)
    cases hb : leadsWith ['#', ' '] line <;> cases prev <;>
      simp [List.length_append] <;> omega

theorem add_pagebreakes_length (doc : Str) :
    doc.length + 1 ≤ (add_pagebreakes doc).length := by
  unfold add_pagebreakes
  rcases hsp : splitOnNl doc with _ | ⟨l, ls⟩
  · exact absurd hsp (splitOnNl_ne_nil doc)
  · have hpb := pbLoop_length_ge ls false (l ++ ['\n'])
    have hsum := lineSum_splitOnNl doc
    rw [hsp] at hsum
    simp only [lineSum] at hsum
    simp only [hsp, List.head?, List.tail_cons]
    simp only [List.length_append, List.length_cons, List.length_nil] at hpb
    omega

theorem pbLoop_eq_breakChunks (ls : List Str) :
    ∀ (prev : Bool) (acc : Str),
      pbLoop prev ls acc = acc ++ breakChunksClaim prev ls := by
  induction ls with
  | nil =>
    intro prev acc
    simp [pbLoop, breakChunksClaim]
  | cons line rest ih =>
    intro prev acc
    simp only [pbLoop, breakChunksClaim]
    rw [ih]
    cases hb : leadsWith ['#', ' '] line <;> cases prev <;>
      simp [List.append_assoc]

theorem head?_dropWhile_neg {α : Type} (p : α → Bool) (xs : List α) :
    (xs.dropWhile (fun x => !p x)).head? = (xs.filter p).head? := by
  induction xs with
  | nil => simp
  | cons x xs ih =>
    by_cases hx : p x <;> simp [List.dropWhile_cons, List.filter_cons, hx, ih]

theorem head?_dropWhile_reverse_eq_getLast?_filter {α : Type} (p : α → Bool)
    (xs : List α) :
    (xs.reverse.dropWhile (fun x => !p x)).head? = (xs.filter p).getLast? := by
  rw [head?_dropWhile_neg, List.filter_reverse, List.head?_reverse]

theorem ensure_blank_end_extend (b : Str) : ∃ u, ensure_blank_end b = b ++ u := by
  unfold ensure_blank_end
  split
  · exact ⟨[], by simp⟩
  · exact ⟨_, rfl⟩

theorem ensure_pagebreak_end_extend (b : Str) :
    ∃ u, ensure_pagebreak_end b = b ++ u := by
  unfold ensure_pagebreak_end
  split
  · exact ⟨[], by simp⟩
  · exact ⟨PAGEBREAK ++ ['\n', '\n'], by simp [List.append_assoc]⟩

mutual
theorem combine_extend (fs : Str → Option Str) (tf : Str → Option Title) :
    ∀ (d : DocDir) (body : Str) (title : Option Title) (r : Str × Option Title),
      combine fs tf d body title = some r → ∃ s, r.1 = body ++ s
  | .mk p false h cs, body, title, r => by
    intro hc
    simp only [combine] at hc
    cases title with
    | none =>
      cases htf : tf p with
      | some t =>
        rw [htf] at hc
        cases hc
        exact ⟨[], by simp⟩
      | none =>
        rw [htf] at hc
        cases hfs : fs p with
        | some content => rw [hfs] at hc; cases hc; exact ⟨content, rfl⟩
        | none => rw [hfs] at hc; cases hc; exact ⟨[], by simp⟩
    | some t0 =>
      cases hfs : fs p with
      | some content => rw [hfs] at hc; cases hc; exact ⟨content, rfl⟩
      | none => rw [hfs] at hc; cases hc; exact ⟨[], by simp⟩
  | .mk p true h cs, body, title, r => by
    intro hc
    simp only [combine] at hc
    cases hrh : read_header fs (.mk p true h cs) with
    | none => simp only [hrh] at hc; exact Option.noConfusion hc
    | some hdr =>
      simp only [hrh] at hc
      cases hcc : combineChildren fs tf h cs (body ++ hdr) title with
      | none => simp only [hcc] at hc; exact Option.noConfusion hc
      | some r1 =>
        obtain ⟨b1, t1⟩ := r1
        simp only [hcc] at hc
        obtain ⟨s1, hs1⟩ :=
          combineChildren_extend fs tf h cs (body ++ hdr) title (b1, t1) hcc
        obtain ⟨u, hu⟩ := ensure_blank_end_extend b1
        obtain ⟨v, hv⟩ := ensure_pagebreak_end_extend (ensure_blank_end b1)
        simp only at hs1
        cases hc
        refine ⟨hdr ++ s1 ++ u ++ v, ?_⟩
        rw [hv, hu, hs1]
        simp [List.append_assoc]
theorem combineChildren_extend (fs : Str → Option Str) (tf : Str → Option Title)
    (h : Str) :
    ∀ (cs : List DocDir) (body : Str) (title : Option Title)
      (r : Str × Option Title),
      combineChildren fs tf h cs body title = some r → ∃ s, r.1 = body ++ s
  | [], body, title, r => by
    intro hc
    simp only [combineChildren] at hc
    cases hc
    exact ⟨[], by simp⟩
  | c :: rest, body, title, r => by
    intro hc
    simp only [combineChildren] at hc
    split at hc
    · cases hcb : combine fs tf c body title with
      | none => simp only [hcb] at hc; exact Option.noConfusion hc
      | some r1 =>
        obtain ⟨b1, t1⟩ := r1
        simp only [hcb] at hc
        obtain ⟨s1, hs1⟩ := combine_extend fs tf c body title (b1, t1) hcb
        obtain ⟨s2, hs2⟩ := combineChildren_extend fs tf h rest b1 t1 r hc
        simp only at hs1
        refine ⟨s1 ++ s2, ?_⟩
        rw [hs2, hs1]
        simp [List.append_assoc]
    · exact combineChildren_extend fs tf h rest body title r hc
end

mutual
theorem combine_title_or (fs : Str → Option Str) (tf : Str → Option Title) :
    ∀ (d : DocDir) (body : Str) (title : Option Title) (r : Str × Option Title),
      combine fs tf d body title = some r →
      r.2 = title.or (List.findSome? tf (visitedFiles d))
  | .mk p false h cs, body, title, r => by
    intro hc
    simp only [combine] at hc
    cases title with
    | none =>
      cases htf : tf p with
      | some t =>
        simp only [htf] at hc
        cases hc
        simp [visitedFiles, List.findSome?_cons, htf, Option.or]
      | none =>
        simp only [htf] at hc
        cases hfs : fs p with
        | some content =>
          simp only [hfs] at hc
          cases hc
          simp [visitedFiles, List.findSome?_cons, htf, Option.or]
        | none =>
          simp only [hfs] at hc
          cases hc
          simp [visitedFiles, List.findSome?_cons, htf, Option.or]
    | some t0 =>
      cases hfs : fs p with
      | some content =>
        simp only [hfs] at hc
        cases hc
        simp [Option.or]
      | none =>
        simp only [hfs] at hc
        cases hc
        simp [Option.or]
  | .mk p true h cs, body, title, r => by
    intro hc
    simp only [combine] at hc
    cases hrh : read_header fs (.mk p true h cs) with
    | none => simp only [hrh] at hc; exact Option.noConfusion hc
    | some hdr =>
      simp only [hrh] at hc
      cases hcc : combineChildren fs tf h cs (body ++ hdr) title with
      | none => simp only [hcc] at hc; exact Option.noConfusion hc
      | some r1 =>
        obtain ⟨b1, t1⟩ := r1
        simp only [hcc] at hc
        have h1 := combineChildren_title_or fs tf h cs (body ++ hdr) title (b1, t1) hcc
        cases hc
        simpa [visitedFiles] using h1
theorem combineChildren_title_or (fs : Str → Option Str)
    (tf : Str → Option Title) (h : Str) :
    ∀ (cs : List DocDir) (body : Str) (title : Option Title)
      (r : Str × Option Title),
      combineChildren fs tf h cs body title = some r →
      r.2 = title.or (List.findSome? tf (visitedFilesList h cs))
  | [], body, title, r => by
    intro hc
    simp only [combineChildren] at hc
    cases hc
    simp [visitedFilesList, Option.or_none]
  | c :: rest, body, title, r => by
    intro hc
    simp only [combineChildren] at hc
    split at hc
    · rename_i hw
      cases hcb : combine fs tf c body title with
      | none => simp only [hcb] at hc; exact Option.noConfusion hc
      | some r1 =>
        obtain ⟨b1, t1⟩ := r1
        simp only [hcb] at hc
        have h1 := combine_title_or fs tf c body title (b1, t1) hcb
        have h2 := combineChildren_title_or fs tf h rest b1 t1 r hc
        simp only at h1
        rw [h2, h1]
        simp [visitedFilesList, hw, List.findSome?_append, Option.or_assoc]
    · rename_i hw
      have h2 := combineChildren_title_or fs tf h rest body title r hc
      rw [h2]
      simp [visitedFilesList, hw]
end

theorem combineChildren_eq_combineList (fs : Str → Option Str)
    (tf : Str → Option Title) (h : Str) (cs : List DocDir) :
    ∀ (body : Str) (title : Option Title),
      combineChildren fs tf h cs body title =
        combineList fs tf (walkedChildren h cs) body title := by
  induction cs with
  | nil =>
    intro body title
    simp [combineChildren, walkedChildren, combineList]
  | cons c rest ih =>
    intro body title
    simp only [combineChildren, walkedChildren, List.filter_cons]
    by_cases hw : walkTest h c = true
    · simp only [hw, if_true, combineList]
      cases hcb : combine fs tf c body title with
      | none => rfl
      | some r1 =>
        obtain ⟨b1, t1⟩ := r1
        simpa [walkedChildren] using ih b1 t1
    · simp only [Bool.not_eq_true] at hw
      simp only [hw, Bool.false_eq_true, if_false]
      simpa [walkedChildren] using ih body title

theorem not_mem_walkedChildren (h : Str) (cs : List DocDir) (c : DocDir)
    (hdir : c.is_dir = false) (hhead : c.header = h) :
    c ∉ walkedChildren h cs := by
  intro hmem
  rw [walkedChildren, List.mem_filter] at hmem
  simp [walkTest, hdir, hhead] at hmem

/-- C1 counterexample: when reading the designated header-source file fails,
`combine` does not absorb the failure — `rebuild_header` unwraps the read and
panics, so the caller gets no combined document (the run aborts, `none`). -/
theorem c1_counterexample :
    combine (fun _ => none) (fun _ => none)
      (.mk ("d").data true ("H").data [.mk ("f").data false ("H").data []])
      [] none = none := rfl

/-- C1 (amended): read failures of ordinary file contents are locally
absorbed: for every file node whose read fails, `combine` returns a combined
result with the body unchanged (the file contributes nothing) and the
traversal continues; only the header-source read inside header synthesis can
abort the operation. -/
theorem c1_amended_file_read_failure_absorbed (fs : Str → Option Str)
    (tf : Str → Option Title) (p h : Str) (cs : List DocDir) (body : Str)
    (title : Option Title) (hread : fs p = none) :
    combine fs tf (.mk p false h cs) body title =
      some (body, title.or (tf p)) := by
  simp only [combine]
  cases title with
  | none =>
    cases htf : tf p with
    | some t => simp [htf, Option.or]
    | none => simp [htf, hread, Option.or]
  | some t0 => simp [hread, Option.or]

/-- C1 witness: a concrete file node whose read fails is absorbed. -/
theorem c1_witness :
    combine (fun _ => none) (fun _ => none) (.mk ("f").data false [] [])
      ("B").data none = some (("B").data, (none : Option Title).or none) :=
  c1_amended_file_read_failure_absorbed _ _ _ _ _ _ _ rfl

/-- C2 counterexample: `add_pagebreakes` is not idempotent — already on the
empty document the second pass appends another newline. -/
theorem c2_counterexample :
    add_pagebreakes (add_pagebreakes ("").data) ≠ add_pagebreakes ("").data := by
  decide

/-- C2 (amended): the normalizer is never idempotent: every pass lengthens the
text by at least one character (each line is re-emitted with a trailing
newline, and a second pass also re-inserts a break marker before every heading
line), so applying it twice never produces the output of applying it once. -/
theorem c2_amended_not_idempotent (doc : Str) :
    doc.length + 1 ≤ (add_pagebreakes doc).length ∧
    add_pagebreakes (add_pagebreakes doc) ≠ add_pagebreakes doc := by
  refine ⟨add_pagebreakes_length doc, fun h => ?_⟩
  have h1 := add_pagebreakes_length (add_pagebreakes doc)
  rw [h] at h1
  omega

/-- C2 witness: the non-idempotence at the concrete document `"x"`. -/
theorem c2_witness :
    ("x").data.length + 1 ≤ (add_pagebreakes ("x").data).length ∧
    add_pagebreakes (add_pagebreakes ("x").data) ≠ add_pagebreakes ("x").data :=
  c2_amended_not_idempotent ("x").data

/-- C4 counterexample: for the accumulated body `"text\n"` the blank-line
step appends two newline characters, not one — the result is not
`"text\n\n"`. -/
theorem c4_counterexample :
    ensure_blank_end ("text\n").data ≠ ("text\n\n").data := by
  decide

/-- C4 (amended): for the accumulated body `"text\n"` the blank-line-ensuring
step of the directory combine appends `"\n\n"`, giving `"text\n\n\n"`, and the
pagebreak-ensuring step then appends the sentinel and a blank line. -/
theorem c4_amended_blank_then_pagebreak :
    ensure_blank_end ("text\n").data = ("text\n\n\n").data ∧
    ensure_pagebreak_end (ensure_blank_end ("text\n").data) =
      ("text\n\n\n======================pagebreak======================\n\n").data := by
  constructor <;> decide

/-- C6 counterexample: the claim tracks blankness of the first input line,
but `add_pagebreakes` initialises `prev_is_empty` to `false`; on the document
`" \n# h"` (blank first line before a heading) the code still inserts the
separation, diverging from the claim's normalizer. -/
theorem c6_counterexample :
    add_pagebreakes ((" \n# h").data) ≠ add_pagebreakes_claim ((" \n# h").data) := by
  decide

/-- C6 (amended): `add_pagebreakes` equals the spec's per-line normalizer
amended in one point: the first input line is always treated as non-blank
(the separation before a marker is two newline characters, inserted exactly
when the previously emitted input line was not blank under that amendment). -/
theorem c6_amended_normalizer (doc : Str) :
    add_pagebreakes doc = add_pagebreakes_amended doc := by
  unfold add_pagebreakes add_pagebreakes_amended
  rcases hsp : splitOnNl doc with _ | ⟨l, ls⟩
  · exact absurd hsp (splitOnNl_ne_nil doc)
  · simp only [hsp, List.head?_cons, List.tail_cons]
    rw [pbLoop_eq_breakChunks]
    simp

/-- C3 counterexample: with two file children both matching the directory's
header, the second matching child does not stay in the traversal: its content
`"CONTENT2"` never reaches the combined body. -/
theorem c3_counterexample :
    combine
      (fun p => if p == ("p1").data then some (("# one\nb1\nb2").data)
                else if p == ("p2").data then some (("CONTENT2").data)
                else none)
      (fun _ => none)
      (.mk ("d").data true ("H").data
        [.mk ("p1").data false ("H").data [],
         .mk ("p2").data false ("H").data []])
      [] none =
      some ((("# H. one\n\nb1\nb2\n\n======================pagebreak======================\n\n").data),
        none) ∧
    occursIn (("CONTENT2").data)
      (("# H. one\n\nb1\nb2\n\n======================pagebreak======================\n\n").data) =
      false := by
  constructor
  · rfl
  · decide

/-- C3 (amended): only the first matching child is consumed as the header
source (via `find?`), but the remaining matching file children do not remain
in the traversal either: every non-directory child whose header equals the
directory's is excluded from the walked children, and the child walk is
exactly the iteration of `combine` over that filtered list. -/
theorem c3_amended_matching_children_skipped :
    (∀ (h : Str) (cs : List DocDir) (c : DocDir),
       c.is_dir = false → c.header = h → c ∉ walkedChildren h cs) ∧
    (∀ (fs : Str → Option Str) (tf : Str → Option Title) (h : Str)
       (cs : List DocDir) (body : Str) (title : Option Title),
       combineChildren fs tf h cs body title =
         combineList fs tf (walkedChildren h cs) body title) ∧
    (∀ (fs : Str → Option Str) (p h : Str) (cs : List DocDir) (c0 : DocDir),
       cs.find? (fun c => !c.is_dir && c.header == h) = some c0 →
       read_header fs (.mk p true h cs) = rebuild_header fs c0) := by
  refine ⟨not_mem_walkedChildren, ?_, ?_⟩
  · intro fs tf h cs body title
    exact combineChildren_eq_combineList fs tf h cs body title
  · intro fs p h cs c0 hfind
    unfold read_header
    rw [show (DocDir.mk p true h cs).children = cs from rfl,
      show (DocDir.mk p true h cs).header = h from rfl, hfind]

/-- C3 witness: in the two-matching-children tree, the second matching child
is not walked and the first is the header source. -/
theorem c3_witness :
    (DocDir.mk ("p2").data false ("H").data []) ∉
      walkedChildren ("H").data
        [DocDir.mk ("p1").data false ("H").data [],
         DocDir.mk ("p2").data false ("H").data []] ∧
    read_header (fun _ => none)
      (.mk ("d").data true ("H").data
        [DocDir.mk ("p1").data false ("H").data [],
         DocDir.mk ("p2").data false ("H").data []]) =
      rebuild_header (fun _ => none)
        (DocDir.mk ("p1").data false ("H").data []) :=
  ⟨c3_amended_matching_children_skipped.1 _ _ _ rfl rfl,
   c3_amended_matching_children_skipped.2.2 _ _ _ _ _ rfl⟩

/-- C5 counterexample: a header-source file whose first line matches no
heading pattern is not emitted unmodified: the newline after the first line
is dropped, so `"hello\nworld\nmore"` comes back as `"helloworld\nmore"`. -/
theorem c5_counterexample :
    headingCaptures (("hello").data) = none ∧
    rebuild_header (fun _ => some (("hello\nworld\nmore").data))
      (.mk ("p").data false ("H").data []) =
      some (("helloworld\nmore").data) ∧
    (("helloworld\nmore").data : Str) ≠ ("hello\nworld\nmore").data := by
  refine ⟨rfl, rfl, by decide⟩

/-- C5 (amended): when the first line does not match the heading pattern, the
first line itself passes through unrewritten, but the file is not emitted
unmodified: the newline separating the first line from the rest is dropped,
and when fewer than two lines follow the first the remainder is replaced by
the placeholder `"\n\n"`. -/
theorem c5_amended_first_line_unrewritten (fs : Str → Option Str)
    (d : DocDir) (l s : Str) (hnl : '\n' ∉ l)
    (hcap : headingCaptures l = none)
    (hread : fs d.path = some (l ++ '\n' :: s)) :
    rebuild_header fs d =
      some (l ++ (if (splitOnNl s).length > 1 then s else ['\n', '\n'])) := by
  simp only [rebuild_header, hread, splitOnNl_append_cons l s hnl,
    List.headD_cons, List.tail_cons, hcap]
  by_cases hlen : (splitOnNl s).length > 1
  · simp [hlen, joinNl_splitOnNl]
  · simp [hlen]

/-- C5 witness: the concrete three-line file with non-matching first line. -/
theorem c5_witness :
    rebuild_header (fun _ => some (("hello\nworld\nmore").data))
      (.mk ("q").data false ("H").data []) =
      some ((("hello").data) ++
        (if (splitOnNl (("world\nmore").data)).length > 1
         then ("world\nmore").data else ['\n', '\n'])) :=
  c5_amended_first_line_unrewritten _ _ _ _ (by decide) rfl rfl

/-- C7: the title is set at most once, by the first visited file whose
extraction succeeds: a title present on entry is never overwritten; starting
untitled, the final title is the first extraction success over the visited
files in traversal order; and a file that yields the title contributes
nothing to the body. -/
theorem c7_title_set_once :
    (∀ (fs : Str → Option Str) (tf : Str → Option Title) (d : DocDir)
       (body : Str) (t0 : Title) (r : Str × Option Title),
       combine fs tf d body (some t0) = some r → r.2 = some t0) ∧
    (∀ (fs : Str → Option Str) (tf : Str → Option Title) (d : DocDir)
       (body : Str) (r : Str × Option Title),
       combine fs tf d body none = some r →
       r.2 = List.findSome? tf (visitedFiles d)) ∧
    (∀ (fs : Str → Option Str) (tf : Str → Option Title) (p h : Str)
       (cs : List DocDir) (body : Str) (t : Title),
       tf p = some t →
       combine fs tf (.mk p false h cs) body none = some (body, some t)) := by
  refine ⟨?_, ?_, ?_⟩
  · intro fs tf d body t0 r hc
    have h1 := combine_title_or fs tf d body (some t0) r hc
    simpa [Option.or] using h1
  · intro fs tf d body r hc
    have h1 := combine_title_or fs tf d body none r hc
    simpa [Option.or] using h1
  · intro fs tf p h cs body t htf
    simp [combine, htf]

/-- C7 witness: concrete runs exercising all three parts. -/
theorem c7_witness :
    ((("X").data, some (⟨("T2").data⟩ : Title)).2 = some (⟨("T2").data⟩ : Title)) ∧
    ((none : Option Title) =
      List.findSome?
        (fun p => if p == ("tp").data then some (⟨("T").data⟩ : Title) else none)
        (visitedFiles (.mk ("f").data false [] []))) ∧
    combine (fun _ => some (("X").data))
      (fun p => if p == ("tp").data then some (⟨("T").data⟩ : Title) else none)
      (.mk ("tp").data false [] []) [] none =
      some ([], some ⟨("T").data⟩) :=
  ⟨c7_title_set_once.1 (fun _ => some (("X").data))
      (fun p => if p == ("tp").data then some ⟨("T").data⟩ else none)
      (.mk ("f").data false [] []) [] ⟨("T2").data⟩ _ rfl,
   c7_title_set_once.2.1 (fun _ => some (("X").data))
      (fun p => if p == ("tp").data then some ⟨("T").data⟩ else none)
      (.mk ("f").data false [] []) [] _ rfl,
   c7_title_set_once.2.2 _ _ _ [] [] [] _ rfl⟩

/-- C8: `ends_with_pagebreak` returns true exactly when the last non-blank
line of the text contains the pagebreak sentinel, and false when every line
is blank: the code's reverse scan equals the spec's description. -/
theorem c8_ends_with_pagebreak_iff (doc : Str) :
    ends_with_pagebreak doc = ends_with_pagebreak_spec doc := by
  unfold ends_with_pagebreak ends_with_pagebreak_spec
  rw [head?_dropWhile_reverse_eq_getLast?_filter]

/-- C9: a header-source file whose first line is `"# Doc header"`, in a
directory whose derived header is `"Part 01"`, is rewritten to the first line
`"# Part 01. Doc header"` followed by a blank line, preserving the original
hash prefix, with the remainder per `rebuild_header`. -/
theorem c9_rebuild_header_rewrites (fs : Str → Option Str) (d : DocDir)
    (s : Str) (hhead : d.header = ("Part 01").data)
    (hread : fs d.path = some ((("# Doc header").data) ++ '\n' :: s)) :
    rebuild_header fs d =
      some ((("# Part 01. Doc header\n\n").data) ++
        (if (splitOnNl s).length > 1 then s else ['\n', '\n'])) := by
  simp only [rebuild_header, hread,
    splitOnNl_append_cons (("# Doc header").data) s (by decide),
    List.headD_cons, List.tail_cons, hhead]
  by_cases hlen : (splitOnNl s).length > 1
  · simp only [if_pos hlen, joinNl_splitOnNl]
    rfl
  · simp only [if_neg hlen]
    rfl

/-- C9 witness: the concrete scenario from the spec. -/
theorem c9_witness :
    rebuild_header (fun _ => some (("# Doc header\nBody\nMore").data))
      (.mk ("part01_xyz").data false ("Part 01").data []) =
      some ((("# Part 01. Doc header\n\n").data) ++
        (if (splitOnNl (("Body\nMore").data)).length > 1
         then ("Body\nMore").data else ['\n', '\n'])) :=
  c9_rebuild_header_rewrites _ _ _ rfl rfl

theorem leadsWith_append (a b : Str) : leadsWith a (a ++ b) = true := by
  induction a with
  | nil => simp [leadsWith]
  | cons c cs ih => simp [leadsWith, ih]

/-- C10: the body accumulator is append-only — whenever `combine` returns,
the starting body is a leading segment of the resulting body. -/
theorem c10_body_append_only (fs : Str → Option Str) (tf : Str → Option Title)
    (d : DocDir) (body : Str) (title : Option Title) (r : Str × Option Title)
    (hc : combine fs tf d body title = some r) :
    leadsWith body r.1 = true := by
  obtain ⟨s, hs⟩ := combine_extend fs tf d body title r hc
  rw [hs]
  exact leadsWith_append body s

/-- C10 witness: a concrete run where the starting body survives as a prefix. -/
theorem c10_witness :
    leadsWith (("B").data) (("Bx").data) = true :=
  c10_body_append_only (fun _ => some (("x").data)) (fun _ => none)
    (.mk ("f").data false [] []) (("B").data) none ((("Bx").data), none) rfl
